import Mathlib

/-!
A shallow embedding of the request-processing core of this GraphQL server:
the HTTP-to-GraphQL translation and response serialization in runHttpQuery,
the batch coordinator runBatchHttpQuery, the GET-only operation guard, the
byte-bounded LRU document store, and the shallow context clone.
-/

namespace ApolloServerModel

/-! JSON values, modelling the values JSON.stringify serializes. -/

inductive Json where
  | null : Json
  | bool : Bool → Json
  | num : Int → Json
  | str : String → Json
  | arr : List Json → Json
  | obj : List (String × Json) → Json

/-- One character of the JSON string escaping performed by JSON.stringify. -/
def escapeChar (c : Char) : String :=
  if c = '"' then "\\\""
  else if c = '\\' then "\\\\"
  else if c = '\n' then "\\n"
  else String.singleton c

/-- JSON.stringify of a string literal. -/
def renderString (s : String) : String :=
  "\"" ++ String.join (s.data.map escapeChar) ++ "\""

mutual

/-- JSON.stringify: no added whitespace, object fields in insertion order,
keys whose value is undefined are omitted before this point. -/
def Json.render : Json → String
  | .null => "null"
  | .bool b => if b then "true" else "false"
  | .num n => toString n
  | .str s => renderString s
  | .arr elems => "[" ++ renderElems elems ++ "]"
  | .obj fields => "\x7b" ++ renderFieldList fields ++ "\x7d"

def renderElems : List Json → String
  | [] => ""
  | [j] => Json.render j
  | j :: rest => Json.render j ++ "," ++ renderElems rest

def renderFieldList : List (String × Json) → String
  | [] => ""
  | [f] => renderField f
  | f :: rest => renderField f ++ "," ++ renderFieldList rest

def renderField : String × Json → String
  | (k, v) => renderString k ++ ":" ++ Json.render v

end

/-- JS Array.prototype.join with a separator. -/
def joinSep (sep : String) : List String → String
  | [] => ""
  | [s] => s
  | s :: rest => s ++ sep ++ joinSep sep rest

theorem renderFieldList_eq (l : List (String × Json)) :
    renderFieldList l = joinSep "," (l.map renderField) := by
  induction l with
  | nil => rfl
  | cons f rest ih =>
    cases rest with
    | nil => rfl
    | cons g t => simp [renderFieldList, joinSep, List.map_cons, ih]

/-! JavaScript runtime values as they appear in a parsed request body. -/

inductive JsValue where
  | undefined : JsValue
  | null : JsValue
  | bool : Bool → JsValue
  | num : Int → JsValue
  | str : String → JsValue
  | buffer : JsValue
  | arr : List JsValue → JsValue
  | obj : List (String × JsValue) → JsValue

/-- JavaScript truthiness of a value. -/
def truthy : JsValue → Bool
  | .undefined => false
  | .null => false
  | .bool b => b
  | .num n => decide (n ≠ 0)
  | .str s => decide (s ≠ "")
  | .buffer => true
  | .arr _ => true
  | .obj _ => true

/-- typeof v === "string". -/
def isStr : JsValue → Bool
  | .str _ => true
  | _ => false

/-- Property lookup on an object field list. -/
def getField : List (String × JsValue) → String → JsValue
  | [], _ => .undefined
  | f :: rest, k => if f.1 = k then f.2 else getField rest k

/-- JS property access o[name]; undefined on non-objects. -/
def JsValue.getProp : JsValue → String → JsValue
  | .obj fields, k => getField fields k
  | _, _ => .undefined

/-- Object.keys. -/
def objKeys : JsValue → List String
  | .obj fields => fields.map (fun f => f.1)
  | _ => []

/-- isStringRecord from runHttpQuery.ts: truthy, typeof object, not a
Buffer, not an array; only plain objects qualify. -/
def isStringRecord : JsValue → Bool
  | .obj _ => true
  | _ => false

/-- isNonEmptyStringRecord from runHttpQuery.ts. -/
def isNonEmptyStringRecord (o : JsValue) : Bool :=
  isStringRecord o && decide (0 < (objKeys o).length)

/-- HttpQueryError from runHttpQuery.ts: a protocol-level failure carrying
an HTTP status, a message, and optional response headers. -/
structure HttpQueryError where
  statusCode : Nat
  message : String
  isGraphQLError : Bool
  headers : List (String × String)
deriving DecidableEq

/-- The guidance message raised when the query looks like a parsed AST. -/
def astGuidanceMessage : String :=
  "GraphQL queries must be strings. It looks like you\x27re sending the internal graphql-js representation of a parsed query in your request instead of a request in the GraphQL query language. You can convert an AST to a string using the \x60print\x60 function from \x60graphql\x60, or use a client like \x60apollo-client\x60 which converts the internal representation to a string for you."

/-- query.kind === "Document". -/
def isDocumentKind (q : JsValue) : Bool :=
  match q.getProp "kind" with
  | .str s => decide (s = "Document")
  | _ => false

/-- ensureQueryIsStringOrMissing from runHttpQuery.ts. -/
def ensureQueryIsStringOrMissing (query : JsValue) : Except HttpQueryError Unit :=
  if !truthy query || isStr query then
    .ok ()
  else if isDocumentKind query then
    .error ⟨400, astGuidanceMessage, false, []⟩
  else
    .error ⟨400, "GraphQL queries must be strings.", false, []⟩

/-- The GraphQLRequest assembled by runHttpQuery from a POST body. -/
structure GraphQLRequest where
  query : Option String
  operationName : Option String
  «variables» : Option (List (String × JsValue))
  extensions : Option (List (String × JsValue))

/-- fieldIfString from runHttpQuery.ts. -/
def fieldIfString (o : JsValue) (name : String) : Option String :=
  match o.getProp name with
  | .str s => some s
  | _ => none

/-- fieldIfRecord from runHttpQuery.ts: non-record values are dropped. -/
def fieldIfRecord (o : JsValue) (name : String) : Option (List (String × JsValue)) :=
  match o.getProp name with
  | .obj fields => some fields
  | _ => none

/-- The POST branch of runHttpQuery: body-shape validation, the query
string-type check, then field extraction. -/
def runHttpQueryPOST (body : JsValue) : Except HttpQueryError GraphQLRequest :=
  if !isNonEmptyStringRecord body then
    .error ⟨400, "POST body missing, invalid Content-Type, or JSON object has no keys.", false, []⟩
  else
    match ensureQueryIsStringOrMissing (body.getProp "query") with
    | .error e => .error e
    | .ok _ =>
        .ok ⟨fieldIfString body "query", fieldIfString body "operationName",
             fieldIfRecord body "variables", fieldIfRecord body "extensions"⟩

/-- jsonParsedFieldIfNonEmptyString from runHttpQuery.ts: a non-empty
string field is JSON-parsed; a parse failure or a parsed value that is not
a plain object is a 400 error; anything else is dropped. JSON.parse is an
external collaborator, passed in as a function returning none on invalid
JSON. -/
def jsonParsedFieldIfNonEmptyString (jsonParse : String → Option JsValue)
    (o : JsValue) (name : String) :
    Except HttpQueryError (Option (List (String × JsValue))) :=
  match o.getProp name with
  | .str s =>
    if s ≠ "" then
      match jsonParse s with
      | none =>
        .error ⟨400, "The " ++ name ++ " search parameter contains invalid JSON.", false, []⟩
      | some (.obj fields) => .ok (some fields)
      | some _ =>
        .error ⟨400, "The " ++ name ++ " search parameter should contain a JSON-encoded object.", false, []⟩
    else
      .ok none
  | _ => .ok none

/-- The GET branch of runHttpQuery: search-params validation, the same
query string-type check as POST applied to searchParams.query, then field
extraction with JSON-parsed variables and extensions (in that evaluation
order). -/
def runHttpQueryGET (jsonParse : String → Option JsValue) (searchParams : JsValue) :
    Except HttpQueryError GraphQLRequest :=
  if !isNonEmptyStringRecord searchParams then
    .error ⟨400, "GET query missing.", false, []⟩
  else
    match ensureQueryIsStringOrMissing (searchParams.getProp "query") with
    | .error e => .error e
    | .ok _ =>
      match jsonParsedFieldIfNonEmptyString jsonParse searchParams "variables" with
      | .error e => .error e
      | .ok vars =>
        match jsonParsedFieldIfNonEmptyString jsonParse searchParams "extensions" with
        | .error e => .error e
        | .ok exts =>
          .ok ⟨fieldIfString searchParams "query",
               fieldIfString searchParams "operationName", vars, exts⟩

/-- C7: a POST whose body is not an object with at least one key (body
missing, an array, a primitive, a Buffer, or the empty object) is rejected
by runHttpQuery with a 400 protocol error carrying exactly the documented
message. -/
theorem post_body_shape_error (body : JsValue)
    (h : ∀ fields, body = JsValue.obj fields → fields = []) :
    runHttpQueryPOST body =
      .error ⟨400, "POST body missing, invalid Content-Type, or JSON object has no keys.", false, []⟩ := by
  cases body with
  | undefined => rfl
  | null => rfl
  | bool b => rfl
  | num n => rfl
  | str s => rfl
  | buffer => rfl
  | arr elems => rfl
  | obj fields =>
      have hf := h fields rfl
      subst hf
      rfl

theorem post_body_shape_error_witness :
    runHttpQueryPOST (JsValue.obj []) =
      .error ⟨400, "POST body missing, invalid Content-Type, or JSON object has no keys.", false, []⟩ :=
  post_body_shape_error (JsValue.obj []) (fun _ hf => by cases hf; rfl)

/-- C8 counterexample: this POST body has a query field that is present and
is not a string (the number 0), yet runHttpQuery accepts the request
instead of failing with a 400 error, because falsy query values skip the
string-type check entirely. -/
theorem query_falsy_nonstring_accepted :
    runHttpQueryPOST (JsValue.obj [("query", JsValue.num 0)]) =
      .ok ⟨none, none, none, none⟩ := rfl

/-- C8 (amended): when the query field of a POST body or of the GET
search params is present, truthy, and not a string, runHttpQuery fails
with a 400 error whose message is the AST-specific guidance when the value
has a kind property equal to "Document" and the generic
string-requirement message otherwise (for GET, regardless of how JSON.parse
behaves on the remaining fields); the two messages are distinct. -/
theorem query_truthy_nonstring_rejected (fields : List (String × JsValue))
    (hne : 0 < fields.length)
    (ht : truthy (getField fields "query") = true)
    (hs : isStr (getField fields "query") = false) :
    (runHttpQueryPOST (JsValue.obj fields) =
      .error ⟨400,
        if isDocumentKind (getField fields "query") then astGuidanceMessage
        else "GraphQL queries must be strings.", false, []⟩)
    ∧ (∀ jsonParse, runHttpQueryGET jsonParse (JsValue.obj fields) =
      .error ⟨400,
        if isDocumentKind (getField fields "query") then astGuidanceMessage
        else "GraphQL queries must be strings.", false, []⟩)
    ∧ astGuidanceMessage ≠ "GraphQL queries must be strings." := by
  refine ⟨?_, fun jsonParse => ?_, by decide⟩
  · by_cases hd : isDocumentKind (getField fields "query") = true
    · simp [runHttpQueryPOST, ensureQueryIsStringOrMissing, JsValue.getProp,
            isNonEmptyStringRecord, isStringRecord, objKeys, hne, ht, hs, hd]
    · simp [runHttpQueryPOST, ensureQueryIsStringOrMissing, JsValue.getProp,
            isNonEmptyStringRecord, isStringRecord, objKeys, hne, ht, hs, hd]
  · by_cases hd : isDocumentKind (getField fields "query") = true
    · simp [runHttpQueryGET, ensureQueryIsStringOrMissing, JsValue.getProp,
            isNonEmptyStringRecord, isStringRecord, objKeys, hne, ht, hs, hd]
    · simp [runHttpQueryGET, ensureQueryIsStringOrMissing, JsValue.getProp,
            isNonEmptyStringRecord, isStringRecord, objKeys, hne, ht, hs, hd]

theorem query_truthy_nonstring_rejected_witness :
    runHttpQueryPOST
        (JsValue.obj [("query", JsValue.obj [("kind", JsValue.str "Document")])]) =
      .error ⟨400, astGuidanceMessage, false, []⟩
    ∧ runHttpQueryGET (fun _ => none)
        (JsValue.obj [("query", JsValue.obj [("kind", JsValue.str "Document")])]) =
      .error ⟨400, astGuidanceMessage, false, []⟩ := by
  have h := query_truthy_nonstring_rejected
    [("query", JsValue.obj [("kind", JsValue.str "Document")])]
    (by decide) rfl rfl
  exact ⟨h.1, h.2.1 (fun _ => none)⟩

/-! The GET-only operation guard (runHttpQuery.ts lines 264 to 294) and the
hook sequencing of the request pipeline. -/

inductive OperationType where
  | query : OperationType
  | mutation : OperationType
  | subscription : OperationType
deriving DecidableEq

/-- A plugin, reduced to its didResolveOperation hook. -/
abbrev Plugin : Type := OperationType → Except HttpQueryError Unit

/-- The didResolveOperation hook that runHttpQuery installs for GET
requests: non-query operations are rejected with 405 and Allow: POST. -/
def getOnlyQueryGuard : Plugin := fun op =>
  if op ≠ OperationType.query then
    .error ⟨405, "GET supports only query operation", false, [("Allow", "POST")]⟩
  else
    .ok ()

/-- Plugin installation in runHttpQuery: the guard is unshifted onto the
front of the plugin list only when the method is GET. -/
def installGetGuard (method : String) (plugins : List Plugin) : List Plugin :=
  if method = "GET" then getOnlyQueryGuard :: plugins else plugins

/-- The didResolveOperation hooks run in list order until one fails. -/
def runDidResolveOperation (plugins : List Plugin) (op : OperationType) :
    Except HttpQueryError Unit :=
  match plugins with
  | [] => .ok ()
  | p :: rest =>
    match p op with
    | .error e => .error e
    | .ok _ => runDidResolveOperation rest op

/-- Modelled from the spec: processGraphQLRequest (requestPipeline.ts, not
included in the sources) parses the request, resolves the operation type,
invokes each plugin didResolveOperation hook in order, and only afterwards
invokes the executor; a parse failure short-circuits before the hooks. -/
def processGraphQLRequest {α : Type} (plugins : List Plugin)
    (parsed : Option OperationType) (execute : OperationType → α) :
    Except HttpQueryError (Option α) :=
  match parsed with
  | none => .ok none
  | some op =>
    match runDidResolveOperation plugins op with
    | .error e => .error e
    | .ok _ => .ok (some (execute op))

/-- C9: for GET requests the installed guard rejects any resolved non-query
operation (mutation or subscription) with a 405 error carrying Allow: POST,
after parsing and operation resolution but before the executor is invoked
(the rejection is the same for every executor and the executor result never
appears in it); the guard is installed only for GET requests. -/
theorem get_guard_rejects_nonquery (plugins : List Plugin) (op : OperationType)
    (hop : op ≠ OperationType.query) :
    (∀ (execute : OperationType → Option Json),
       processGraphQLRequest (installGetGuard "GET" plugins) (some op) execute =
         .error ⟨405, "GET supports only query operation", false, [("Allow", "POST")]⟩)
    ∧ (∀ (execute : OperationType → Option Json),
       processGraphQLRequest (installGetGuard "GET" plugins) none execute = .ok none)
    ∧ (∀ method, method ≠ "GET" → installGetGuard method plugins = plugins) := by
  refine ⟨fun execute => ?_, fun execute => rfl, fun method hm => ?_⟩
  · have hg : installGetGuard "GET" plugins = getOnlyQueryGuard :: plugins := by
      simp [installGetGuard]
    rw [hg]
    simp [processGraphQLRequest, runDidResolveOperation, getOnlyQueryGuard, hop]
  · simp [installGetGuard, hm]

theorem get_guard_rejects_nonquery_witness :
    processGraphQLRequest (installGetGuard "GET" []) (some OperationType.mutation)
        (fun _ => (none : Option Json)) =
      .error ⟨405, "GET supports only query operation", false, [("Allow", "POST")]⟩ :=
  (get_guard_rejects_nonquery [] OperationType.mutation (by decide)).1
    (fun _ => (none : Option Json))

/-! The response tail of runHttpQuery: serialization and status selection. -/

/-- The partial HTTP response plugins may mutate during the pipeline. -/
structure PipelineHttpPartial where
  statusCode : Option Nat
  headers : List (String × String)

/-- The GraphQLResponse produced by the pipeline, as consumed by the
response tail of runHttpQuery: errors, data and extensions may each be
undefined, and the http partial carries any explicitly set status. -/
structure PipelineResult where
  errors : Option Json
  data : Option Json
  extensions : Option Json
  http : Option PipelineHttpPartial

/-- JSON.stringify omits object keys whose value is undefined. -/
def definedFields (fields : List (String × Option Json)) : List (String × Json) :=
  fields.filterMap (fun f => f.2.map (fun v => (f.1, v)))

/-- serializeGraphQLResponse from runHttpQuery.ts: the wire object is
always built with its keys in the order errors, data, extensions. -/
def serializeGraphQLResponse (r : PipelineResult) : List (String × Option Json) :=
  [("errors", r.errors), ("data", r.data), ("extensions", r.extensions)]

/-- prettyJSONStringify from runHttpQuery.ts: JSON plus a trailing newline. -/
def prettyJSONStringify (v : Json) : String :=
  Json.render v ++ "\n"

/-- The discriminator at runHttpQuery.ts line 335: errors are present (a JS
array is always truthy) and data is undefined. -/
def preExecutionFailure (r : PipelineResult) : Bool :=
  r.errors.isSome && r.data.isNone

/-- The fields of the serialized body object: an errors-and-extensions-only
object on pre-execution failure, the serializeGraphQLResponse object
otherwise. -/
def responseBodyFields (r : PipelineResult) : List (String × Json) :=
  if preExecutionFailure r then
    definedFields [("errors", r.errors), ("extensions", r.extensions)]
  else
    definedFields (serializeGraphQLResponse r)

/-- The JS expression for falling back from an optional status: undefined
and 0 are falsy. -/
def jsOrStatus (s : Option Nat) (fallback : Nat) : Nat :=
  match s with
  | some n => if n = 0 then fallback else n
  | none => fallback

/-- The response tail of runHttpQuery: the chosen status code and the
complete body. The pre-execution-failure branch defaults the status to 400
unless the partial response already carries one; the ordinary branch keeps
whatever status the partial response holds and serializes the response via
serializeGraphQLResponse. -/
def runHttpQueryRespond (r : PipelineResult) : Option Nat × String :=
  (if preExecutionFailure r then
     some (jsOrStatus (r.http.bind (fun p => p.statusCode)) 400)
   else
     r.http.bind (fun p => p.statusCode),
   prettyJSONStringify (Json.obj (responseBodyFields r)))

/-- C5: an operation that failed before execution (errors present, data
undefined) yields a body object holding only errors (plus extensions when
they are present) and no data key at all, with status 400 unless the
partial response explicitly carries a different status; a response whose
data is defined (possibly null) always gets a data key. -/
theorem preexecution_failure_body (r : PipelineResult) :
    (r.errors.isSome = true → r.data = none →
      ((responseBodyFields r).map Prod.fst =
         "errors" :: (match r.extensions with | some _ => ["extensions"] | none => [])
       ∧ "data" ∉ (responseBodyFields r).map Prod.fst
       ∧ (r.http.bind (fun p => p.statusCode) = none →
            (runHttpQueryRespond r).1 = some 400)
       ∧ (∀ s, r.http.bind (fun p => p.statusCode) = some s → s ≠ 0 →
            (runHttpQueryRespond r).1 = some s)))
    ∧ (∀ d, r.data = some d → "data" ∈ (responseBodyFields r).map Prod.fst) := by
  obtain ⟨er, da, ex, hp⟩ := r
  constructor
  · intro he hd
    simp only at hd he
    subst hd
    obtain ⟨e, he2⟩ := Option.isSome_iff_exists.mp he
    subst he2
    have hb : responseBodyFields ⟨some e, none, ex, hp⟩ =
        ("errors", e) :: (match ex with
          | some x => [("extensions", x)]
          | none => []) := by
      cases ex <;> simp [responseBodyFields, preExecutionFailure, definedFields]
    have hst : (runHttpQueryRespond ⟨some e, none, ex, hp⟩).1 =
        some (jsOrStatus (hp.bind (fun p => p.statusCode)) 400) := by
      simp [runHttpQueryRespond, preExecutionFailure]
    refine ⟨?_, ?_, ?_, ?_⟩
    · rw [hb]
      cases ex <;> simp
    · rw [hb]
      cases ex <;> simp
    · intro hn
      rw [hst, hn]
      rfl
    · intro s hsome hs0
      rw [hst, hsome]
      simp [jsOrStatus, hs0]
  · intro d hd
    simp only at hd
    subst hd
    cases er <;> cases ex <;>
      simp [responseBodyFields, preExecutionFailure, definedFields,
        serializeGraphQLResponse]

theorem preexecution_failure_body_witness :
    (responseBodyFields ⟨some (Json.arr []), none, none, none⟩).map Prod.fst = ["errors"]
    ∧ (runHttpQueryRespond ⟨some (Json.arr []), none, none, none⟩).1 = some 400 := by
  have h := (preexecution_failure_body ⟨some (Json.arr []), none, none, none⟩).1 rfl rfl
  exact ⟨h.1, h.2.2.1 rfl⟩

/-- C6: every single-operation body is the JSON object whose fields appear
in the order errors, data, extensions with absent fields omitted, joined
with commas, followed by exactly one trailing newline; when execution
yields data and neither errors nor extensions are present, the body is
exactly the data-only object followed by a newline. -/
theorem response_body_format (r : PipelineResult) :
    ((runHttpQueryRespond r).2 =
       "\x7b" ++ joinSep "," ((responseBodyFields r).map renderField) ++ "\x7d" ++ "\n"
     ∧ (responseBodyFields r).map Prod.fst =
         (if r.errors.isSome then ["errors"] else [])
           ++ (if r.data.isSome then ["data"] else [])
           ++ (if r.extensions.isSome then ["extensions"] else []))
    ∧ (∀ j, r.errors = none → r.extensions = none → r.data = some j →
        (runHttpQueryRespond r).2 = "\x7b\"data\":" ++ Json.render j ++ "\x7d" ++ "\n") := by
  constructor
  · constructor
    · simp only [runHttpQueryRespond, prettyJSONStringify, Json.render, renderFieldList_eq]
    · obtain ⟨er, da, ex, hp⟩ := r
      cases er <;> cases da <;> cases ex <;>
        simp [responseBodyFields, preExecutionFailure, definedFields,
          serializeGraphQLResponse]
  · intro j he hx hd
    obtain ⟨er, da, ex, hp⟩ := r
    simp only at he hx hd
    subst he
    subst hx
    subst hd
    have h2 : responseBodyFields ⟨none, some j, none, hp⟩ = [("data", j)] := by
      simp [responseBodyFields, preExecutionFailure, definedFields,
        serializeGraphQLResponse]
    have h3 : Json.render (Json.obj [("data", j)]) =
        "\x7b" ++ (renderString "data" ++ ":" ++ Json.render j) ++ "\x7d" := by
      simp [Json.render, renderFieldList, renderField]
    simp only [runHttpQueryRespond, prettyJSONStringify, h2, h3]
    rw [show renderString "data" = "\"data\"" from rfl]
    have key : "\x7b" ++ ("\"data\"" ++ ":" ++ Json.render j) =
        "\x7b\"data\":" ++ Json.render j := by
      rw [← String.append_assoc, ← String.append_assoc]
      rfl
    rw [key]

theorem response_body_format_witness :
    (runHttpQueryRespond ⟨none, some (Json.num 1), none, none⟩).2 =
      "\x7b\"data\":" ++ Json.render (Json.num 1) ++ "\x7d" ++ "\n" :=
  (response_body_format ⟨none, some (Json.num 1), none, none⟩).2 (Json.num 1) rfl rfl rfl

/-! The batch coordinator runBatchHttpQuery (httpBatching.ts). -/

/-- The transport-neutral HTTP response a single operation produces. -/
structure HTTPGraphQLResponse where
  headers : List (String × String)
  statusCode : Option Nat
  completeBody : Option String
deriving DecidableEq

/-- JS Map.set: update an existing key in place, else append. -/
def mapSet : List (String × String) → String → String → List (String × String)
  | [], k, v => [(k, v)]
  | e :: rest, k, v => if e.1 = k then (k, v) :: rest else e :: mapSet rest k v

/-- JS Map.get. -/
def headerLookup : List (String × String) → String → Option String
  | [], _ => none
  | e :: rest, k => if e.1 = k then some e.2 else headerLookup rest k

/-- The side effects run when one operation of the batch completes: every
header it set overrides the combined map, and a truthy status code wins. -/
def mergeOne (acc : List (String × String) × Option Nat) (r : HTTPGraphQLResponse) :
    List (String × String) × Option Nat :=
  (r.headers.foldl (fun m e => mapSet m e.1 e.2) acc.1,
   match r.statusCode with
   | some s => if s = 0 then acc.2 else some s
   | none => acc.2)

/-- runBatchHttpQuery from httpBatching.ts, with the completion order of
the concurrent operations made explicit: completed lists the same
responses in the order their futures resolve, and the shared combined
response is mutated in that order as each future completes, while
Promise.all hands the bodies back indexed by input position. -/
def runBatchHttpQuery (responses completed : List HTTPGraphQLResponse) :
    Except String HTTPGraphQLResponse :=
  if responses.any (fun r => r.completeBody.isNone) then
    .error "Incremental delivery not implemented"
  else
    let merged := completed.foldl mergeOne ([], none)
    .ok ⟨merged.1, merged.2,
      some ("[" ++ joinSep "," (responses.map (fun r => r.completeBody.getD "")) ++ "]")⟩

theorem any_isNone_false (responses : List HTTPGraphQLResponse)
    (hb : ∀ r ∈ responses, r.completeBody.isSome = true) :
    responses.any (fun r => r.completeBody.isNone) = false := by
  rw [List.any_eq_false]
  intro r hr
  obtain ⟨b, hbe⟩ := Option.isSome_iff_exists.mp (hb r hr)
  rw [hbe]
  simp

theorem runBatchHttpQuery_ok (responses completed : List HTTPGraphQLResponse)
    (h : responses.any (fun r => r.completeBody.isNone) = false) :
    runBatchHttpQuery responses completed =
      .ok ⟨(completed.foldl mergeOne ([], none)).1, (completed.foldl mergeOne ([], none)).2,
        some ("[" ++ joinSep "," (responses.map (fun r => r.completeBody.getD "")) ++ "]")⟩ := by
  unfold runBatchHttpQuery
  rw [if_neg (by simp [h])]

/-- C1: for every batch of N operations, the combined body is the JSON
array literal of exactly the N already-serialized bodies joined with
commas in original input order, for every completion order of the N
concurrent executions. -/
theorem batch_body_input_order (responses completed : List HTTPGraphQLResponse)
    (_hperm : completed.Perm responses)
    (hb : ∀ r ∈ responses, r.completeBody.isSome = true) :
    ∃ out, runBatchHttpQuery responses completed = .ok out
      ∧ out.completeBody =
          some ("[" ++ joinSep "," (responses.map (fun r => r.completeBody.getD "")) ++ "]")
      ∧ (responses.map (fun r => r.completeBody.getD "")).length = responses.length := by
  exact ⟨_, runBatchHttpQuery_ok responses completed (any_isNone_false responses hb),
    rfl, by simp⟩

theorem batch_body_input_order_witness :
    Except.map (fun out => out.completeBody)
        (runBatchHttpQuery
          [⟨[], none, some "A"⟩, ⟨[], none, some "B"⟩]
          [⟨[], none, some "B"⟩, ⟨[], none, some "A"⟩]) =
      .ok (some ("[" ++ joinSep ","
        (([⟨[], none, some "A"⟩, ⟨[], none, some "B"⟩] :
            List HTTPGraphQLResponse).map (fun r => r.completeBody.getD "")) ++ "]")) := by
  obtain ⟨out, h1, h2, h3⟩ := batch_body_input_order
    [⟨[], none, some "A"⟩, ⟨[], none, some "B"⟩]
    [⟨[], none, some "B"⟩, ⟨[], none, some "A"⟩]
    (by decide) (by decide)
  rw [h1]
  simp [Except.map, h2]

/-- C2 counterexample: with a colliding header key x, the same batch run
under two completion orders produces different merged headers, and under
the completion order in which the later input operation finishes first,
the earlier operation of the input array ends up winning — the merged
headers are not determined solely by input-array order. -/
theorem batch_header_merge_depends_on_completion :
    runBatchHttpQuery
        [⟨[("x", "a")], some 201, some "A"⟩, ⟨[("x", "b")], none, some "B"⟩]
        [⟨[("x", "b")], none, some "B"⟩, ⟨[("x", "a")], some 201, some "A"⟩] =
      .ok ⟨[("x", "a")], some 201, some "[A,B]"⟩
    ∧ runBatchHttpQuery
        [⟨[("x", "a")], some 201, some "A"⟩, ⟨[("x", "b")], none, some "B"⟩]
        [⟨[("x", "a")], some 201, some "A"⟩, ⟨[("x", "b")], none, some "B"⟩] =
      .ok ⟨[("x", "b")], some 201, some "[A,B]"⟩
    ∧ ([("x", "a")] : List (String × String)) ≠ [("x", "b")] :=
  ⟨rfl, rfl, by decide⟩

/-- Last occurrence of a key in one response header list (JS Map.set is
applied entry by entry, so within one response the last entry for a key
wins). -/
def lastEntry : List (String × String) → String → Option String
  | [], _ => none
  | e :: rest, k =>
    match lastEntry rest k with
    | some v => some v
    | none => if e.1 = k then some e.2 else none

/-- The header value the merge leaves for a key: the last completed
response that sets the key wins. -/
def lastMergedHeader : List HTTPGraphQLResponse → String → Option String
  | [], _ => none
  | r :: rest, k =>
    match lastMergedHeader rest k with
    | some v => some v
    | none => lastEntry r.headers k

/-- The status code the merge leaves: the last completed response carrying
a truthy status wins. -/
def lastTruthyStatus : List HTTPGraphQLResponse → Option Nat
  | [] => none
  | r :: rest =>
    match lastTruthyStatus rest with
    | some s => some s
    | none =>
      match r.statusCode with
      | some s => if s = 0 then none else some s
      | none => none

/-- The header component of mergeOne. -/
def headersFold (m : List (String × String)) (r : HTTPGraphQLResponse) :
    List (String × String) :=
  r.headers.foldl (fun m e => mapSet m e.1 e.2) m

/-- The status component of mergeOne. -/
def statusFold (s : Option Nat) (r : HTTPGraphQLResponse) : Option Nat :=
  match r.statusCode with
  | some t => if t = 0 then s else some t
  | none => s

theorem foldl_mergeOne (completed : List HTTPGraphQLResponse)
    (m : List (String × String)) (s : Option Nat) :
    completed.foldl mergeOne (m, s) =
      (completed.foldl headersFold m, completed.foldl statusFold s) := by
  induction completed generalizing m s with
  | nil => rfl
  | cons r rest ih =>
    simp only [List.foldl_cons]
    rw [show mergeOne (m, s) r = (headersFold m r, statusFold s r) from rfl, ih]

theorem headerLookup_mapSet (m : List (String × String)) (k v k2 : String) :
    headerLookup (mapSet m k v) k2 = if k = k2 then some v else headerLookup m k2 := by
  induction m with
  | nil => simp [mapSet, headerLookup]
  | cons e rest ih =>
    by_cases h1 : e.1 = k <;> by_cases h2 : e.1 = k2 <;> by_cases h3 : k = k2 <;>
      simp_all [mapSet, headerLookup, ih]

theorem headerLookup_headersFold (r : HTTPGraphQLResponse)
    (acc : List (String × String)) (k : String) :
    headerLookup (headersFold acc r) k =
      match lastEntry r.headers k with
      | some v => some v
      | none => headerLookup acc k := by
  show headerLookup (r.headers.foldl (fun m e => mapSet m e.1 e.2) acc) k = _
  induction r.headers generalizing acc with
  | nil => simp [lastEntry]
  | cons e rest ih =>
    simp only [List.foldl_cons, lastEntry]
    rw [ih]
    cases hle : lastEntry rest k with
    | some v => simp
    | none =>
      by_cases he : e.1 = k <;> simp [headerLookup_mapSet, he]

theorem headerLookup_merged (completed : List HTTPGraphQLResponse)
    (acc : List (String × String)) (k : String) :
    headerLookup (completed.foldl headersFold acc) k =
      match lastMergedHeader completed k with
      | some v => some v
      | none => headerLookup acc k := by
  induction completed generalizing acc with
  | nil => simp [lastMergedHeader]
  | cons r rest ih =>
    simp only [List.foldl_cons, lastMergedHeader]
    rw [ih]
    cases hlm : lastMergedHeader rest k with
    | some v => simp
    | none =>
      rw [headerLookup_headersFold]

theorem statusFold_merged (completed : List HTTPGraphQLResponse) (s : Option Nat) :
    completed.foldl statusFold s =
      match lastTruthyStatus completed with
      | some t => some t
      | none => s := by
  induction completed generalizing s with
  | nil => simp [lastTruthyStatus]
  | cons r rest ih =>
    simp only [List.foldl_cons, lastTruthyStatus]
    rw [ih]
    cases hlt : lastTruthyStatus rest with
    | some t => simp
    | none =>
      cases hrs : r.statusCode with
      | none => simp [statusFold, hrs]
      | some t =>
        by_cases ht : t = 0 <;> simp [statusFold, hrs, ht]

/-- C2 (amended): headers and status code are merged last-writer-wins in
the order the concurrent operations complete — the shared combined
response is mutated as each future resolves, not recomputed in a final
input-order pass — so the operation later in the input array wins only
when the completion order coincides with the input order. -/
theorem batch_merge_follows_completion_order
    (responses completed : List HTTPGraphQLResponse)
    (hb : ∀ r ∈ responses, r.completeBody.isSome = true) :
    ∃ out, runBatchHttpQuery responses completed = .ok out
      ∧ (∀ k, headerLookup out.headers k = lastMergedHeader completed k)
      ∧ out.statusCode = lastTruthyStatus completed := by
  refine ⟨_, runBatchHttpQuery_ok responses completed (any_isNone_false responses hb),
    fun k => ?_, ?_⟩
  · show headerLookup (completed.foldl mergeOne ([], none)).1 k = lastMergedHeader completed k
    rw [foldl_mergeOne]
    show headerLookup (completed.foldl headersFold []) k = _
    rw [headerLookup_merged]
    cases lastMergedHeader completed k <;> simp [headerLookup]
  · show (completed.foldl mergeOne ([], none)).2 = lastTruthyStatus completed
    rw [foldl_mergeOne]
    show completed.foldl statusFold none = _
    rw [statusFold_merged]
    cases lastTruthyStatus completed <;> simp

theorem batch_merge_follows_completion_order_witness :
    Except.map (fun out => headerLookup out.headers "x")
        (runBatchHttpQuery [⟨[("x", "a")], none, some "A"⟩]
          [⟨[("x", "a")], none, some "A"⟩]) =
      .ok (lastMergedHeader [⟨[("x", "a")], none, some "A"⟩] "x") := by
  obtain ⟨out, h1, h2, h3⟩ := batch_merge_follows_completion_order
    [⟨[("x", "a")], none, some "A"⟩] [⟨[("x", "a")], none, some "A"⟩] (by decide)
  rw [h1]
  simp [Except.map, h2 "x"]

/-- C3 counterexample: a batch in which no operation sets a status code
comes back from runBatchHttpQuery with its status code unset — the batch
coordinator never assigns the 200 default. -/
theorem batch_status_not_defaulted :
    Except.map (fun out => out.statusCode)
        (runBatchHttpQuery [⟨[], none, some "A"⟩] [⟨[], none, some "A"⟩]) =
      .ok none
    ∧ (none : Option Nat) ≠ some 200 :=
  ⟨rfl, by decide⟩

/-- The express middleware step just before sending the batch response:
if (!res.statusCode) res.statusCode = 200. -/
def expressFinalStatus (s : Option Nat) : Nat :=
  match s with
  | some n => if n = 0 then 200 else n
  | none => 200

theorem statusFold_all_none (completed : List HTTPGraphQLResponse)
    (hs : ∀ r ∈ completed, r.statusCode = none) (s : Option Nat) :
    completed.foldl statusFold s = s := by
  induction completed generalizing s with
  | nil => rfl
  | cons r rest ih =>
    simp only [List.foldl_cons]
    rw [show statusFold s r = s by simp [statusFold, hs r (by simp)]]
    exact ih (fun r2 h2 => hs r2 (by simp [h2])) s

/-- C3 (amended): when no constituent operation sets an explicit status
code, runBatchHttpQuery returns the merged response with its status code
unset (no opinion); the default to 200 is applied afterwards by the
transport adapter (the express middleware assigns res.statusCode = 200
just before sending), not by the batch coordinator at the end of merging. -/
theorem batch_status_unset_then_transport_defaults
    (responses completed : List HTTPGraphQLResponse)
    (hb : ∀ r ∈ responses, r.completeBody.isSome = true)
    (hs : ∀ r ∈ completed, r.statusCode = none) :
    ∃ out, runBatchHttpQuery responses completed = .ok out
      ∧ out.statusCode = none
      ∧ expressFinalStatus out.statusCode = 200 := by
  refine ⟨_, runBatchHttpQuery_ok responses completed (any_isNone_false responses hb),
    ?_, ?_⟩
  · show (completed.foldl mergeOne ([], none)).2 = none
    rw [foldl_mergeOne]
    exact statusFold_all_none completed hs none
  · show expressFinalStatus (completed.foldl mergeOne ([], none)).2 = 200
    rw [foldl_mergeOne]
    show expressFinalStatus (completed.foldl statusFold none) = 200
    rw [statusFold_all_none completed hs none]
    rfl

theorem batch_status_unset_then_transport_defaults_witness :
    Except.map (fun out => expressFinalStatus out.statusCode)
        (runBatchHttpQuery [⟨[], none, some "A"⟩] [⟨[], none, some "A"⟩]) =
      .ok 200 := by
  obtain ⟨out, h1, h2, h3⟩ := batch_status_unset_then_transport_defaults
    [⟨[], none, some "A"⟩] [⟨[], none, some "A"⟩] (by decide) (by decide)
  rw [h1]
  simp [Except.map, h3]

/-! The document store (KeyvLRU.ts): a byte-bounded LRU. The lru-cache
library that KeyvLRU configures is not part of the sources, so the store
behaviour is modelled from the spec; the default capacity and the
per-entry size calculator are taken from the source. -/

/-- jsonBytesSizeCalculator from KeyvLRU.ts: the UTF-8 byte length of the
JSON serialization of the stored document, computed once per entry. -/
def jsonBytesSizeCalculator (v : Json) : Nat :=
  (Json.render v).utf8ByteSize

/-- The default capacity configured in KeyvLRU.ts: Math.pow(2, 20) * 30. -/
def defaultMax : Nat := 2 ^ 20 * 30

section DocumentStore

variable {V : Type}

/-- Total size of the live entries of the store. -/
def totalSize (sz : V → Nat) (l : List (String × V)) : Nat :=
  (l.map (fun e => sz e.2)).sum

/-- Modelled from the spec: LRU eviction, dropping least-recently-used
entries (the tail of the recency list) until the total size fits the
capacity. -/
def trim (cap : Nat) (sz : V → Nat) (l : List (String × V)) : List (String × V) :=
  if h : totalSize sz l ≤ cap then l
  else trim cap sz l.dropLast
termination_by l.length
decreasing_by
  have hne : l ≠ [] := by
    intro he
    subst he
    exact h (by simp [totalSize])
  have hl : 0 < l.length := List.length_pos.mpr hne
  rw [List.length_dropLast]
  omega

/-- First entry with the given key in the recency list. -/
def lruFind : List (String × V) → String → Option (String × V)
  | [], _ => none
  | e :: rest, k => if e.1 = k then some e else lruFind rest k

/-- Modelled from the spec: Get returns the stored value and counts as an
access, moving the entry to the most-recent position. -/
def lruGet (k : String) (l : List (String × V)) : Option V × List (String × V) :=
  match lruFind l k with
  | none => (none, l)
  | some e => (some e.2, e :: l.filter (fun x => !decide (x.1 = k)))

/-- Modelled from the spec: Set stores the value at the most-recent
position (counting as an access) and then evicts least-recently-used
entries while the total size exceeds the capacity. -/
def lruSet (cap : Nat) (sz : V → Nat) (k : String) (v : V) (l : List (String × V)) :
    List (String × V) :=
  trim cap sz ((k, v) :: l.filter (fun x => !decide (x.1 = k)))

/-- A client operation against the document store. -/
inductive CacheOp (V : Type) where
  | get : String → CacheOp V
  | set : String → V → CacheOp V

def applyOp (cap : Nat) (sz : V → Nat) (l : List (String × V)) :
    CacheOp V → List (String × V)
  | .get k => (lruGet k l).2
  | .set k v => lruSet cap sz k v l

/-- Run a sequence of operations against an initially empty store. -/
def runOps (cap : Nat) (sz : V → Nat) (ops : List (CacheOp V)) : List (String × V) :=
  ops.foldl (applyOp cap sz) []

theorem totalSize_cons (sz : V → Nat) (e : String × V) (l : List (String × V)) :
    totalSize sz (e :: l) = sz e.2 + totalSize sz l := by
  simp [totalSize]

theorem trim_totalSize_le (cap : Nat) (sz : V → Nat) (l : List (String × V)) :
    totalSize sz (trim cap sz l) ≤ cap := by
  suffices h : ∀ n (l : List (String × V)), l.length ≤ n →
      totalSize sz (trim cap sz l) ≤ cap from h l.length l le_rfl
  intro n
  induction n with
  | zero =>
    intro l hl
    have he : l = [] := List.length_eq_zero.mp (Nat.le_zero.mp hl)
    subst he
    rw [trim, dif_pos (by simp [totalSize])]
    simp [totalSize]
  | succ n ih =>
    intro l hl
    rw [trim]
    split
    · assumption
    · apply ih
      have := List.length_dropLast l
      omega

theorem trim_is_truncation (cap : Nat) (sz : V → Nat) (l : List (String × V)) :
    ∃ dropped, l = trim cap sz l ++ dropped := by
  suffices h : ∀ n (l : List (String × V)), l.length ≤ n →
      ∃ dropped, l = trim cap sz l ++ dropped from h l.length l le_rfl
  intro n
  induction n with
  | zero =>
    intro l hl
    have he : l = [] := List.length_eq_zero.mp (Nat.le_zero.mp hl)
    subst he
    refine ⟨[], ?_⟩
    rw [trim, dif_pos (by simp [totalSize])]
    rfl
  | succ n ih =>
    intro l hl
    by_cases hc : totalSize sz l ≤ cap
    · refine ⟨[], ?_⟩
      rw [trim, dif_pos hc, List.append_nil]
    · have hne : l ≠ [] := by
        intro he
        subst he
        exact hc (by simp [totalSize])
      obtain ⟨d, hd⟩ := ih l.dropLast (by have := List.length_dropLast l; omega)
      refine ⟨d ++ [l.getLast hne], ?_⟩
      rw [trim, dif_neg hc, ← List.append_assoc, ← hd]
      exact (List.dropLast_append_getLast hne).symm

theorem totalSize_filter_le (sz : V → Nat) (p : String × V → Bool)
    (l : List (String × V)) :
    totalSize sz (l.filter p) ≤ totalSize sz l := by
  induction l with
  | nil => simp [totalSize]
  | cons e rest ih =>
    rw [List.filter_cons]
    cases hpe : p e <;> simp [totalSize_cons] <;> omega

theorem lruFind_size (sz : V → Nat) (k : String) (l : List (String × V))
    (e : String × V) (h : lruFind l k = some e) :
    sz e.2 + totalSize sz (l.filter (fun x => !decide (x.1 = k))) ≤ totalSize sz l := by
  induction l with
  | nil => simp [lruFind] at h
  | cons a rest ih =>
    rw [lruFind] at h
    by_cases ha : a.1 = k
    · rw [if_pos ha] at h
      injection h with he
      subst he
      have hb : (!decide (a.1 = k)) = false := by simp [ha]
      rw [List.filter_cons]
      simp only [hb, Bool.false_eq_true, if_false, totalSize_cons]
      have := totalSize_filter_le sz (fun x => !decide (x.1 = k)) rest
      omega
    · rw [if_neg ha] at h
      have ihh := ih h
      have hb : (!decide (a.1 = k)) = true := by simp [ha]
      rw [List.filter_cons]
      simp only [hb, if_true, totalSize_cons]
      omega

theorem lruGet_totalSize_le (sz : V → Nat) (k : String) (l : List (String × V)) :
    totalSize sz (lruGet k l).2 ≤ totalSize sz l := by
  unfold lruGet
  cases hf : lruFind l k with
  | none => simp
  | some e =>
    show totalSize sz (e :: l.filter (fun x => !decide (x.1 = k))) ≤ totalSize sz l
    rw [totalSize_cons]
    exact lruFind_size sz k l e hf

theorem applyOp_invariant (cap : Nat) (sz : V → Nat) (l : List (String × V))
    (op : CacheOp V) (h : totalSize sz l ≤ cap) :
    totalSize sz (applyOp cap sz l op) ≤ cap := by
  cases op with
  | get k => exact le_trans (lruGet_totalSize_le sz k l) h
  | set k v => exact trim_totalSize_le cap sz _

theorem foldl_applyOp_invariant (cap : Nat) (sz : V → Nat) (ops : List (CacheOp V)) :
    ∀ (l : List (String × V)), totalSize sz l ≤ cap →
      totalSize sz (ops.foldl (applyOp cap sz) l) ≤ cap := by
  induction ops with
  | nil =>
    intro l hl
    simpa using hl
  | cons op rest ih =>
    intro l hl
    exact ih _ (applyOp_invariant cap sz l op hl)

theorem runOps_invariant (cap : Nat) (sz : V → Nat) (ops : List (CacheOp V)) :
    totalSize sz (runOps cap sz ops) ≤ cap :=
  foldl_applyOp_invariant cap sz ops [] (by simp [totalSize])

end DocumentStore

/-- C4: starting from an empty document store, after any sequence of Get
and Set operations (both of which count as access) the sum of the
per-entry sizes — the UTF-8 byte length of the JSON serialization of each
stored document, computed once per entry — never exceeds the configured
capacity; the capacity defaults to 2 to the power 20 times 30 bytes
(30 MiB), and eviction always removes a suffix of the recency list, that
is, the least-recently-used entries first. -/
theorem documentStore_invariant :
    (∀ (cap : Nat) (ops : List (CacheOp Json)),
       totalSize jsonBytesSizeCalculator (runOps cap jsonBytesSizeCalculator ops) ≤ cap)
    ∧ defaultMax = 2 ^ 20 * 30
    ∧ (∀ (cap : Nat) (l : List (String × Json)),
       ∃ dropped, l = trim cap jsonBytesSizeCalculator l ++ dropped) :=
  ⟨fun cap ops => runOps_invariant cap jsonBytesSizeCalculator ops, rfl,
   fun cap l => trim_is_truncation cap jsonBytesSizeCalculator l⟩

/-! The shallow context clone (cloneObject in runHttpQuery.ts) over an
explicit object heap: objects hold a prototype reference and own
enumerable properties whose values are references (addresses) into the
same heap; a fresh allocation appends to the heap. -/

/-- The data of one JS object: its prototype reference and its own
enumerable properties, each mapping a key to a value reference. -/
structure JsObjData where
  proto : Option Nat
  props : List (String × Nat)
deriving DecidableEq

/-- Dereference an address. -/
def heapGet (h : List JsObjData) (a : Nat) : Option JsObjData := h[a]?

/-- cloneObject from runHttpQuery.ts, that is
Object.assign(Object.create(Object.getPrototypeOf(object)), object): a
fresh object with the same prototype reference and the same own-property
references, allocated at a fresh address. -/
def cloneObject (h : List JsObjData) (a : Nat) : List JsObjData × Nat :=
  let o := (h[a]?).getD ⟨none, []⟩
  (h ++ [⟨o.proto, o.props⟩], h.length)

theorem cloneObject_eq (h : List JsObjData) (a : Nat) :
    cloneObject h a = (h ++ [(h[a]?).getD ⟨none, []⟩], h.length) := rfl

/-- Assignment to one own property of an object. -/
def propSet : List (String × Nat) → String → Nat → List (String × Nat)
  | [], k, v => [(k, v)]
  | e :: rest, k, v => if e.1 = k then (k, v) :: rest else e :: propSet rest k v

/-- Mutation of a top-level property of the object at an address. -/
def setProp (h : List JsObjData) (a : Nat) (k : String) (v : Nat) : List JsObjData :=
  match h[a]? with
  | some o => h.set a ⟨o.proto, propSet o.props k v⟩
  | none => h

/-- runHttpQuery passes cloneObject(context) to each operation of a batch:
every operation allocates its own clone of the shared context. -/
def cloneContexts (h : List JsObjData) (ctx : Nat) : Nat → List JsObjData × List Nat
  | 0 => (h, [])
  | n + 1 =>
    let step := cloneObject h ctx
    let rest := cloneContexts step.1 ctx n
    (rest.1, step.2 :: rest.2)

theorem setProp_other (h : List JsObjData) (i j : Nat) (k : String) (v : Nat)
    (hij : i ≠ j) : heapGet (setProp h i k v) j = heapGet h j := by
  unfold setProp heapGet
  cases h[i]? with
  | none => rfl
  | some o => exact List.getElem?_set_ne hij

theorem cloneContexts_heap (h : List JsObjData) (ctx : Nat) (n : Nat) :
    ∃ ext, (cloneContexts h ctx n).1 = h ++ ext := by
  induction n generalizing h with
  | zero => exact ⟨[], (List.append_nil h).symm⟩
  | succ n ih =>
    obtain ⟨ext, he⟩ := ih (cloneObject h ctx).1
    refine ⟨(h[ctx]?).getD ⟨none, []⟩ :: ext, ?_⟩
    show (cloneContexts (cloneObject h ctx).1 ctx n).1 = _
    rw [he, cloneObject_eq]
    simp

theorem cloneContexts_addrs (h : List JsObjData) (ctx : Nat) (n : Nat) :
    (cloneContexts h ctx n).2 = List.range' h.length n := by
  induction n generalizing h with
  | zero => rfl
  | succ n ih =>
    show (cloneObject h ctx).2 :: (cloneContexts (cloneObject h ctx).1 ctx n).2 = _
    rw [ih]
    have hlen : (cloneObject h ctx).1.length = h.length + 1 := by
      rw [cloneObject_eq]
      simp
    rw [hlen, List.range'_succ]
    rfl

theorem cloneContexts_content (h : List JsObjData) (ctx : Nat) (n : Nat)
    (hctx : ctx < h.length) :
    ∀ b ∈ (cloneContexts h ctx n).2,
      heapGet (cloneContexts h ctx n).1 b = heapGet h ctx := by
  induction n generalizing h with
  | zero =>
    intro b hb
    simp [cloneContexts] at hb
  | succ n ih =>
    intro b hb
    have hget : h[ctx]? = some h[ctx] := List.getElem?_eq_getElem hctx
    have hco : (cloneObject h ctx).1 = h ++ [h[ctx]] := by
      rw [cloneObject_eq, hget]
      rfl
    have hb2 : b = h.length ∨ b ∈ (cloneContexts (cloneObject h ctx).1 ctx n).2 := by
      have hb3 : b ∈ (cloneObject h ctx).2 :: (cloneContexts (cloneObject h ctx).1 ctx n).2 := hb
      exact List.mem_cons.mp hb3
    have hfin : (cloneContexts h ctx (n + 1)).1 = (cloneContexts (cloneObject h ctx).1 ctx n).1 := rfl
    rcases hb2 with hb2 | hb2
    · subst hb2
      obtain ⟨ext, hext⟩ := cloneContexts_heap (cloneObject h ctx).1 ctx n
      rw [hfin, hext, hco, List.append_assoc]
      unfold heapGet
      rw [List.getElem?_append_right (le_refl h.length)]
      simp [hget]
    · have hctx2 : ctx < (cloneObject h ctx).1.length := by
        rw [hco]
        simp
        omega
      have := ih (cloneObject h ctx).1 hctx2 b hb2
      rw [hfin, this, hco]
      unfold heapGet
      exact List.getElem?_append_left hctx

/-- C10: cloneObject returns a fresh object, distinct from its argument,
with exactly the same prototype reference and the same own-property
references (a shallow copy: nested objects stay shared); each operation of
a batch gets its own clone of the shared context, the clones are pairwise
distinct and distinct from the original, and mutating a top-level property
of one object leaves every other object — in particular each sibling clone
and the original context — unchanged. -/
theorem cloneObject_shallow_isolated (h : List JsObjData) (a : Nat) (n : Nat)
    (ha : a < h.length) :
    ((cloneObject h a).2 ≠ a
     ∧ heapGet (cloneObject h a).1 (cloneObject h a).2 = heapGet h a
     ∧ (∀ k v, heapGet (setProp (cloneObject h a).1 (cloneObject h a).2 k v) a = heapGet h a))
    ∧ ((cloneContexts h a n).2.Nodup
       ∧ (∀ b ∈ (cloneContexts h a n).2, b ≠ a
            ∧ heapGet (cloneContexts h a n).1 b = heapGet h a))
    ∧ (∀ (g : List JsObjData) (i j : Nat) (k : String) (v : Nat), i ≠ j →
        heapGet (setProp g i k v) j = heapGet g j) := by
  have hget : h[a]? = some h[a] := List.getElem?_eq_getElem ha
  have hco : (cloneObject h a).1 = h ++ [h[a]] := by
    rw [cloneObject_eq, hget]
    rfl
  have hadr : (cloneObject h a).2 = h.length := rfl
  refine ⟨⟨?_, ?_, ?_⟩, ⟨?_, ?_⟩, ?_⟩
  · rw [hadr]
    omega
  · rw [hadr, hco]
    unfold heapGet
    rw [List.getElem?_concat_length, hget]
  · intro k v
    rw [hadr]
    have hne : h.length ≠ a := by omega
    rw [setProp_other ((cloneObject h a).1) h.length a k v hne, hco]
    unfold heapGet
    exact List.getElem?_append_left ha
  · rw [cloneContexts_addrs]
    exact List.nodup_range' h.length n 1 (by omega)
  · intro b hb
    have hmem : b ∈ List.range' h.length n := by
      rw [← cloneContexts_addrs h a n]
      exact hb
    have hrange := List.mem_range'_1.mp hmem
    exact ⟨by omega, cloneContexts_content h a n ha b hb⟩
  · intro g i j k v hij
    exact setProp_other g i j k v hij

theorem cloneObject_shallow_isolated_witness :
    heapGet (cloneObject [⟨none, [("p", 0)]⟩] 0).1 (cloneObject [⟨none, [("p", 0)]⟩] 0).2 =
      heapGet [⟨none, [("p", 0)]⟩] 0
    ∧ (cloneContexts [⟨none, [("p", 0)]⟩] 0 2).2.Nodup := by
  have h := cloneObject_shallow_isolated [⟨none, [("p", 0)]⟩] 0 2 (by decide)
  exact ⟨h.1.2.1, h.2.1.1⟩

end ApolloServerModel
